import Mathlib

/-!
Verification development for the jimeng-api job admission layer.

The definitions below are a shallow embedding of
src/lib/session-rate-limiter.ts (SessionRateLimiter: local buckets and
the Redis acquire/release scripts) and of the POST /v1/videos/generations
route (async task creation, the async worker, webhook triggering).
Machine integers are modelled as Nat (JavaScript integers in the relevant
ranges), wall-clock instants as Nat milliseconds, and fallible code as
Except.  The single-threaded event loop is modelled as a sequence of
atomic steps (acquire call, release call, bucket retry-timer firing,
waiter timeout firing); each step is the synchronous body the source runs
without interruption.
-/

namespace Jimeng

/-! ### Configuration (constructor of SessionRateLimiter, lines 79-93).
The constructor clamps: minIntervalMs >= 0, maxConcurrent >= 1,
maxQueuePerSession >= 1, queueTimeoutMs >= 1000, inflightTtlMs >= 10000,
redisPollIntervalMs >= 20.  We keep the fields free and add the clamp
facts as hypotheses where a claim needs them. -/

structure RLConfig where
  enabled : Bool
  minIntervalMs : Nat
  maxConcurrent : Nat
  maxQueuePerSession : Nat
  queueTimeoutMs : Nat
  redisPollIntervalMs : Nat
  deriving DecidableEq, Repr

/-! ### Local mode data (QueueWaiter / SessionBucket, lines 5-16).
A waiter's resolve/reject callbacks are represented by its numeric id;
timeoutHandle is represented by the absolute deadline the setTimeout was
scheduled for (acquire time + queueTimeoutMs), or none when
queueTimeoutMs = 0 and no timeout is scheduled (line 227). -/

structure QueueWaiter where
  wid : Nat
  deadline : Option Nat
  deriving DecidableEq, Repr

structure SessionBucket where
  active : Nat
  lastStartedAt : Nat
  queue : List QueueWaiter
  timer : Bool
  deriving DecidableEq, Repr

/-- The bucket freshly created by getBucket (lines 250-255). -/
def emptyBucket : SessionBucket :=
  { active := 0, lastStartedAt := 0, queue := [], timer := false }

/-- The buckets registry (the Map at line 41), as a lookup function. -/
def Registry : Type := String → Option SessionBucket

def emptyReg : Registry := fun _ => none

/-- Negation of the three early-return guards of cleanupBucket
(lines 303-308): the bucket still holds live state. -/
def bucketLive (b : SessionBucket) : Bool :=
  decide (0 < b.active) || !b.queue.isEmpty || b.timer

/-- cleanupBucket (lines 303-308): delete the registry entry exactly when
active = 0, the queue is empty and no retry timer is pending. -/
def cleanupBucket (sid : String) (b : SessionBucket) (reg : Registry) : Registry :=
  if bucketLive b then reg else fun s => if s = sid then none else reg s

/-- Write the (mutated-in-place in the source) bucket back to the registry
and run cleanupBucket on it, as every local operation's exit path does. -/
def storeBack (reg : Registry) (sid : String) (b : SessionBucket) : Registry :=
  cleanupBucket sid b (fun s => if s = sid then some b else reg s)

/-- processQueue (lines 260-301), with the bucket fields passed apart so
the recursion is structural on the pending queue.  Returns the final
bucket and the ids of the waiters granted during this synchronous
cascade.  waitMs uses Nat truncated subtraction, which coincides with
Math.max(0, lastStartedAt + minIntervalMs - now).  The timer branch sets
timer to true whether or not one was already pending, which is what the
guarded setTimeout at lines 271-276 leaves behind. -/
def processQueueAux (cfg : RLConfig) (now : Nat) :
    Nat → Nat → Bool → List QueueWaiter → SessionBucket × List Nat
  | active, lastStartedAt, timer, [] =>
    if cfg.enabled = false then
      (⟨active, lastStartedAt, [], timer⟩, [])
    else if cfg.maxConcurrent ≤ active then
      (⟨active, lastStartedAt, [], timer⟩, [])
    else
      (⟨active, lastStartedAt, [], timer⟩, [])
  | active, lastStartedAt, timer, w :: rest =>
    if cfg.enabled = false then
      (⟨active, lastStartedAt, w :: rest, timer⟩, [])
    else if cfg.maxConcurrent ≤ active then
      (⟨active, lastStartedAt, w :: rest, timer⟩, [])
    else if 0 < lastStartedAt + cfg.minIntervalMs - now then
      (⟨active, lastStartedAt, w :: rest, true⟩, [])
    else if active + 1 < cfg.maxConcurrent then
      let r := processQueueAux cfg now (active + 1) now timer rest
      (r.1, w.wid :: r.2)
    else
      (⟨active + 1, now, rest, timer⟩, [w.wid])

def processQueue (cfg : RLConfig) (now : Nat) (b : SessionBucket) :
    SessionBucket × List Nat :=
  processQueueAux cfg now b.active b.lastStartedAt b.timer b.queue

/-- The waiter built by acquireLocal (lines 220-239): its timeout, when
queueTimeoutMs > 0, fires at acquire time + queueTimeoutMs. -/
def mkWaiter (cfg : RLConfig) (now : Nat) (wid : Nat) : QueueWaiter :=
  { wid := wid
    deadline := if 0 < cfg.queueTimeoutMs then some (now + cfg.queueTimeoutMs) else none }

inductive AcqOutcome where
  /-- the queue-overflow Error thrown at lines 214-218 -/
  | overflow
  /-- the waiter was enqueued (and possibly granted synchronously) -/
  | enqueued
  deriving DecidableEq, Repr

/-- acquireLocal (lines 212-244): getBucket inserts a fresh bucket when
absent (line 256) before the overflow check; on overflow the Error is
thrown with the registry left as getBucket made it; otherwise the waiter
is pushed and processQueue runs. -/
def acquireLocalStep (cfg : RLConfig) (now : Nat) (sid : String) (wid : Nat)
    (reg : Registry) : AcqOutcome × Registry × List Nat :=
  let b := (reg sid).getD emptyBucket
  let reg1 : Registry := fun s => if s = sid then some b else reg s
  if cfg.maxQueuePerSession ≤ b.queue.length then
    (.overflow, reg1, [])
  else
    let pq := processQueue cfg now { b with queue := b.queue ++ [mkWaiter cfg now wid] }
    (.enqueued, storeBack reg1 sid pq.1, pq.2)

/-- The waiter-timeout handler (lines 228-238): if the waiter is still in
its bucket's queue, splice it out, reject it with the timeout Error
(the returned Bool) and run cleanupBucket; otherwise do nothing.
The handler never runs processQueue. -/
def timeoutStep (sid : String) (wid : Nat) (reg : Registry) : Registry × Bool :=
  match reg sid with
  | none => (reg, false)
  | some b =>
    if b.queue.any (fun w => w.wid = wid) then
      (storeBack reg sid { b with queue := b.queue.eraseP (fun w => w.wid = wid) }, true)
    else (reg, false)

/-- The bucket retry-timer callback (lines 272-275): clear the timer flag
and re-run processQueue.  A pending timer keeps the bucket registered, so
the lookup always finds the bucket the closure captured. -/
def timerFireStep (cfg : RLConfig) (now : Nat) (sid : String) (reg : Registry) :
    Registry × List Nat :=
  match reg sid with
  | none => (reg, [])
  | some b =>
    let pq := processQueue cfg now { b with timer := false }
    (storeBack reg sid pq.1, pq.2)

/-- The first invocation of a local release closure (lines 288-294):
active = Math.max(0, active - 1) (Nat truncated subtraction), then
processQueue, then cleanupBucket.  An unreleased grant keeps active > 0
and hence the bucket registered, so the lookup finds the captured bucket. -/
def releaseStep (cfg : RLConfig) (now : Nat) (sid : String) (reg : Registry) :
    Registry × List Nat :=
  match reg sid with
  | none => (reg, [])
  | some b =>
    let pq := processQueue cfg now { b with active := b.active - 1 }
    (storeBack reg sid pq.1, pq.2)

/-- The local release closure including its released flag (lines 287-294):
the state is (released?, registry); a second call is a no-op. -/
def localReleaseCall (cfg : RLConfig) (now : Nat) (sid : String)
    (s : Bool × Registry) : Bool × Registry :=
  if s.1 then s else (true, (releaseStep cfg now sid s.2).1)

/-- One atomic unit of local-mode work on the event loop. -/
inductive Ev where
  | acq (sid : String) (wid : Nat)
  | rel (sid : String)
  | fire (sid : String)
  | tmo (sid : String) (wid : Nat)
  deriving DecidableEq, Repr

def Ev.sid : Ev → String
  | .acq s _ => s
  | .rel s => s
  | .fire s => s
  | .tmo s _ => s

/-- Dispatch one event; returns the new registry and the ids granted
during the event's synchronous cascade. -/
def step (cfg : RLConfig) (now : Nat) (e : Ev) (reg : Registry) :
    Registry × List Nat :=
  match e with
  | .acq sid wid => (acquireLocalStep cfg now sid wid reg).2
  | .rel sid => releaseStep cfg now sid reg
  | .fire sid => timerFireStep cfg now sid reg
  | .tmo sid wid => ((timeoutStep sid wid reg).1, [])

/-- Run a timed trace of events; the second component is the grant log:
(grant start instant, credential, waiter id), in grant order. -/
def runRL (cfg : RLConfig) : List (Nat × Ev) → Registry → Registry × List (Nat × String × Nat)
  | [], reg => (reg, [])
  | (t, e) :: tr, reg =>
    let s1 := step cfg t e reg
    let rest := runRL cfg tr s1.1
    (rest.1, (s1.2.map fun w => (t, e.sid, w)) ++ rest.2)

/-! ### Distributed mode: the Redis Lua scripts (lines 43-77), with the
two keys' stored values and PX expiries made explicit.  Both scripts run
atomically in Redis; here each is a single pure function on the
per-credential admission record. -/

/-- One Redis string key holding a number, with its absolute expiry. -/
structure RedisEntry where
  value : Nat
  expiresAt : Nat
  deriving DecidableEq, Repr

/-- tonumber(redis.call("GET", key) or "0"): 0 when absent or expired. -/
def redisGet (e : Option RedisEntry) (now : Nat) : Nat :=
  match e with
  | none => 0
  | some r => if now < r.expiresAt then r.value else 0

/-- The per-credential admission record: the inflight counter key and the
next-allowed-at interval key. -/
structure AdmissionState where
  inflight : Option RedisEntry
  interval : Option RedisEntry
  deriving DecidableEq, Repr

/-- The {granted, reason, waitMs, inflight} reply array of the acquire
script. -/
structure ScriptReply where
  granted : Bool
  reason : String
  waitMs : Nat
  inflightOut : Nat
  deriving DecidableEq, Repr

/-- REDIS_ACQUIRE_SCRIPT (lines 43-68): deny with "concurrency" when
inflight >= maxConcurrent; deny with "interval" (and the remaining wait)
when nextAllowedAt > now; otherwise set the interval key to
now + minIntervalMs with TTL intervalTtlMs, increment the inflight key
and refresh its TTL to inflightTtlMs, and grant. -/
def redisAcquire (st : AdmissionState) (nowMs minIntervalMs maxConcurrent
    inflightTtlMs intervalTtlMs : Nat) : ScriptReply × AdmissionState :=
  let inflight := redisGet st.inflight nowMs
  if maxConcurrent ≤ inflight then
    (⟨false, "concurrency", 0, inflight⟩, st)
  else
    let nextAllowedAt := redisGet st.interval nowMs
    if nowMs < nextAllowedAt then
      (⟨false, "interval", nextAllowedAt - nowMs, inflight⟩, st)
    else
      (⟨true, "ok", 0, inflight + 1⟩,
       { inflight := some ⟨inflight + 1, nowMs + inflightTtlMs⟩
         interval := some ⟨nowMs + minIntervalMs, nowMs + intervalTtlMs⟩ })

/-- REDIS_RELEASE_SCRIPT (lines 69-77): when the (live) count is <= 1 the
key is deleted and 0 returned; otherwise DECR (which keeps the TTL). -/
def redisRelease (st : AdmissionState) (nowMs : Nat) : Nat × AdmissionState :=
  let inflight := redisGet st.inflight nowMs
  if inflight ≤ 1 then
    (0, { st with inflight := none })
  else
    match st.inflight with
    | some r => (inflight - 1, { st with inflight := some ⟨inflight - 1, r.expiresAt⟩ })
    | none => (inflight - 1, { st with inflight := none })

/-- intervalTtlMs = Math.max(minIntervalMs * 50, 60000) (line 160). -/
def intervalTtl (minIntervalMs : Nat) : Nat :=
  max (minIntervalMs * 50) 60000

/-- The distributed release closure with its released flag
(lines 185-194): a second call is a no-op. -/
def distReleaseCall (now : Nat) (s : Bool × AdmissionState) : Bool × AdmissionState :=
  if s.1 then s else (true, (redisRelease s.2 now).2)

inductive DistIterOutcome where
  /-- the wait-timeout Error thrown at lines 164-166 or 198-200 -/
  | timeoutErr
  | granted (st : AdmissionState)
  | sleepRetry (sleepMs : Nat) (st : AdmissionState)
  deriving DecidableEq, Repr

/-- One iteration of the acquireDistributed polling loop (lines 162-209).
rand models Math.floor(Math.random() * 40). -/
def distIter (cfg : RLConfig) (inflightTtlMs deadlineAt now rand : Nat)
    (st : AdmissionState) : DistIterOutcome :=
  if deadlineAt ≤ now then .timeoutErr
  else
    let r := redisAcquire st now cfg.minIntervalMs cfg.maxConcurrent
      inflightTtlMs (intervalTtl cfg.minIntervalMs)
    if r.1.granted then .granted r.2
    else
      let leftMs := deadlineAt - now
      if leftMs = 0 then .timeoutErr
      else if r.1.reason = "interval" ∧ 0 < r.1.waitMs then
        .sleepRetry (min r.1.waitMs leftMs) r.2
      else
        .sleepRetry (min (cfg.redisPollIntervalMs + rand % 40) leftMs) r.2

/-- Which admission path one acquire call takes. -/
inductive AcquirePath where
  /-- disabled limiter or empty credential: immediate no-op release (lines 96-98) -/
  | noopGrant
  /-- acquireDistributed returned a release (line 103) -/
  | distributedGrant
  /-- acquireDistributed threw: warn and fall through to acquireLocal (lines 104-109) -/
  | localFallback
  /-- no Redis client: acquireLocal directly (line 109) -/
  | localOnly
  deriving DecidableEq, Repr

/-- acquire (lines 95-110): the try/catch around acquireDistributed never
propagates the distributed error; distOutcome is the outcome of the
awaited acquireDistributed call when a Redis client exists. -/
def acquireTop (cfg : RLConfig) (sessionId : String) (redisAvailable : Bool)
    (distOutcome : Except String Unit) : AcquirePath :=
  if cfg.enabled = false ∨ sessionId = "" then .noopGrant
  else if redisAvailable then
    match distOutcome with
    | .ok _ => .distributedGrant
    | .error _ => .localFallback
  else .localOnly

/-! ### Task records, the task store and the async video route
(src/unnamed route file for POST /v1/videos/generations).
The route file is in the sources; taskStore itself is not, so its three
operations used here are modelled from the spec (section 4.2). -/

structure GeneratedVideo where
  url : String
  history_id : String
  item_id : String
  preview_url : String
  hq_url : String
  deriving DecidableEq, Repr

/-- One element of the data array the route builds (lines 224-247 /
300-324 of the route file). -/
structure ResultEntry where
  url : Option String
  b64_json : Option String
  revised_prompt : String
  history_id : String
  item_id : String
  preview_url : String
  hq_url : String
  deriving DecidableEq, Repr

structure ResultData where
  created : Nat
  data : List ResultEntry
  deriving DecidableEq, Repr

structure Task where
  tid : Nat
  type : String
  status : String
  callback_url : Option String
  model : String
  prompt : String
  result : Option ResultData
  error : Option String
  progress : Option String
  created_at : Nat
  completed_at : Option Nat
  deriving DecidableEq, Repr

/-- The partial-record argument of taskStore.update: absent fields are
left untouched by the merge. -/
structure TaskUpdate where
  status : Option String := none
  result : Option ResultData := none
  error : Option String := none
  progress : Option String := none
  completed_at : Option Nat := none
  deriving DecidableEq, Repr

/-- Modelled from the spec: taskStore.update(id, partial) merges the given
fields into the existing record and persists the merged record
(spec section 4.2); taskStore itself is not among the sources. -/
def Task.applyUpdate (t : Task) (u : TaskUpdate) : Task :=
  { t with
    status := u.status.getD t.status
    result := u.result <|> t.result
    error := u.error <|> t.error
    progress := u.progress <|> t.progress
    completed_at := u.completed_at <|> t.completed_at }

abbrev TaskStore : Type := List Task

/-- Modelled from the spec: taskStore.create(fields) assigns a fresh id,
status = pending, created_at = now, and returns the full record
(spec section 4.2); taskStore itself is not among the sources. -/
def taskStoreCreate (store : TaskStore) (ty : String) (cb : Option String)
    (mdl prompt : String) (freshId now : Nat) : TaskStore × Task :=
  let t : Task := { tid := freshId, type := ty, status := "pending",
                    callback_url := cb, model := mdl, prompt := prompt,
                    result := none, error := none, progress := none,
                    created_at := now, completed_at := none }
  (store ++ [t], t)

/-- Modelled from the spec: taskStore.get(id) returns the record or
absent (spec section 4.2). -/
def taskStoreGet (store : TaskStore) (tid : Nat) : Option Task :=
  store.find? (fun t => t.tid = tid)

/-- Modelled from the spec: the persisted result of taskStore.update
(spec section 4.2). -/
def taskStoreUpdate (store : TaskStore) (tid : Nat) (u : TaskUpdate) : TaskStore :=
  store.map (fun t => if t.tid = tid then t.applyUpdate u else t)

/-- The result object the async worker and the sync path build from the
generated video (route lines 220-247 and 296-324): b64_json entries when
response_format = "b64_json" (b64 is the fetched base64 body, itself a
fallible fetch), url entries otherwise. -/
def buildResult (responseFormat prompt : String) (v : GeneratedVideo)
    (b64 : String) (created : Nat) : ResultData :=
  if responseFormat = "b64_json" then
    ⟨created, [⟨none, some b64, prompt, v.history_id, v.item_id, v.preview_url, v.hq_url⟩]⟩
  else
    ⟨created, [⟨some v.url, none, prompt, v.history_id, v.item_id, v.preview_url, v.hq_url⟩]⟩

/-- The fallible part of the worker body: generateVideo, then (on the
b64_json path) fetchFileBASE64; any rejection surfaces here with its
message. -/
def workOutcome (responseFormat prompt : String)
    (gen : Except String GeneratedVideo) (b64 : Except String String)
    (created : Nat) : Except String ResultData :=
  match gen with
  | .error e => .error e
  | .ok v =>
    if responseFormat = "b64_json" then
      match b64 with
      | .error e => .error e
      | .ok s => .ok (buildResult responseFormat prompt v s created)
    else .ok (buildResult responseFormat prompt v "" created)

/-- JavaScript truthiness of the callback_url field in
"if (finalTask?.callback_url)": an absent field or empty string is falsy. -/
def truthyUrl (cb : Option String) : Bool :=
  match cb with
  | none => false
  | some u => !(u = "")

/-- The closure enqueued by the async branch (route lines 195-267): mark
processing, run the generation, record completed-with-result or
failed-with-error-message (completed_at in epoch seconds), then re-read
the task and dispatch a webhook iff its callback_url is truthy.  The
whole body is inside try/catch, so it is a total function: no exception
escapes into the queue.  Returns the final store and the webhook call
(url, payload) if one is sent. -/
def asyncVideoWork (tid : Nat) (responseFormat prompt : String)
    (gen : Except String GeneratedVideo) (b64 : Except String String)
    (created nowSec : Nat) (store : TaskStore) :
    TaskStore × Option (String × Task) :=
  let store1 := taskStoreUpdate store tid
    { status := some "processing", progress := some "生成中" }
  let store2 :=
    match workOutcome responseFormat prompt gen b64 created with
    | .ok rd => taskStoreUpdate store1 tid
        { status := some "completed", result := some rd, completed_at := some nowSec }
    | .error e => taskStoreUpdate store1 tid
        { status := some "failed", error := some e, completed_at := some nowSec }
  let wh :=
    match taskStoreGet store2 tid with
    | some t => if truthyUrl t.callback_url then some (t.callback_url.getD "", t) else none
    | none => none
  (store2, wh)

/-- The three validated shapes of body.async (undefined, boolean, or the
strings "true"/"false"). -/
inductive AsyncField where
  | absent
  | boolVal (b : Bool)
  | strVal (s : String)
  deriving DecidableEq, Repr

/-- Route lines 181-183: isMultiPart and a string value compare against
"true"; otherwise strict equality with boolean true. -/
def effectiveAsync (isMultiPart : Bool) (a : AsyncField) : Bool :=
  match isMultiPart, a with
  | true, .strVal s => s = "true"
  | _, .boolVal b => b
  | _, _ => false

inductive GenerationsResponse where
  /-- the async branch's return value at line 269 -/
  | asyncAccepted (task_id : Nat) (status : String)
  /-- the sync branch's return value -/
  | syncResult (r : ResultData)
  deriving DecidableEq, Repr

structure RouteResult where
  response : GenerationsResponse
  store : TaskStore
  /-- the task id handed to taskQueue.enqueue, if any -/
  enqueued : Option Nat
  deriving DecidableEq, Repr

/-- POST /v1/videos/generations after validation (route lines 186-324):
the async branch creates the pending video task, enqueues its work and
answers task_id/pending without touching the provider; the sync branch
awaits the provider (gen / b64) and returns the formatted result,
propagating provider errors. -/
def postGenerations (isMultiPart : Bool) (asyncField : AsyncField)
    (store : TaskStore) (freshId : Nat) (mdl prompt : String)
    (cb : Option String) (now : Nat) (responseFormat : String)
    (gen : Except String GeneratedVideo) (b64 : Except String String)
    (created : Nat) : Except String RouteResult :=
  if effectiveAsync isMultiPart asyncField then
    let c := taskStoreCreate store "video" cb mdl prompt freshId now
    .ok ⟨.asyncAccepted c.2.tid "pending", c.1, some c.2.tid⟩
  else
    match gen with
    | .error e => .error e
    | .ok v =>
      if responseFormat = "b64_json" then
        match b64 with
        | .error e => .error e
        | .ok s => .ok ⟨.syncResult (buildResult responseFormat prompt v s created), store, none⟩
      else .ok ⟨.syncResult (buildResult responseFormat prompt v "" created), store, none⟩

/-! ### Lemmas about the local-mode cascade -/


/-- processQueue never pushes active above maxConcurrent: each grant is
guarded by active < maxConcurrent. -/
theorem processQueueAux_active_le (cfg : RLConfig) (now : Nat) :
    ∀ (q : List QueueWaiter) (a l : Nat) (tm : Bool), a ≤ cfg.maxConcurrent →
      (processQueueAux cfg now a l tm q).1.active ≤ cfg.maxConcurrent := by
  intro q
  induction q with
  | nil =>
    intro a l tm h
    rw [processQueueAux.eq_1]
    split
    · exact h
    · split <;> exact h
  | cons w rest ih =>
    intro a l tm h
    rw [processQueueAux.eq_2]
    split
    · exact h
    · split
      · exact h
      · split
        · exact h
        · split
          · exact ih _ _ _ (by omega)
          · simp only
            omega

/-- processQueue never decreases active. -/
theorem processQueueAux_active_ge (cfg : RLConfig) (now : Nat) :
    ∀ (q : List QueueWaiter) (a l : Nat) (tm : Bool),
      a ≤ (processQueueAux cfg now a l tm q).1.active := by
  intro q
  induction q with
  | nil =>
    intro a l tm
    rw [processQueueAux.eq_1]
    split
    · exact Nat.le_refl a
    · split <;> exact Nat.le_refl a
  | cons w rest ih =>
    intro a l tm
    rw [processQueueAux.eq_2]
    split
    · exact Nat.le_refl a
    · split
      · exact Nat.le_refl a
      · split
        · exact Nat.le_refl a
        · split
          · exact Nat.le_trans (Nat.le_succ a) (ih _ _ _)
          · simp only
            omega

/-- processQueue only ever removes waiters from the queue. -/
theorem processQueueAux_queue_len (cfg : RLConfig) (now : Nat) :
    ∀ (q : List QueueWaiter) (a l : Nat) (tm : Bool),
      (processQueueAux cfg now a l tm q).1.queue.length ≤ q.length := by
  intro q
  induction q with
  | nil =>
    intro a l tm
    rw [processQueueAux.eq_1]
    split
    · simp
    · split <;> simp
  | cons w rest ih =>
    intro a l tm
    rw [processQueueAux.eq_2]
    split
    · simp
    · split
      · simp
      · split
        · simp
        · split
          · exact Nat.le_trans (ih _ _ _) (by simp)
          · simp

/-- A cascade that grants at least one waiter starts from a state where
the spacing test lastStartedAt + minIntervalMs <= now passed. -/
theorem processQueueAux_grant_cond (cfg : RLConfig) (now : Nat)
    (q : List QueueWaiter) (a l : Nat) (tm : Bool)
    (h : (processQueueAux cfg now a l tm q).2 ≠ []) :
    l + cfg.minIntervalMs ≤ now := by
  match q with
  | [] =>
    rw [processQueueAux.eq_1] at h
    revert h
    split
    · simp
    · split <;> simp
  | w :: rest =>
    rw [processQueueAux.eq_2] at h
    revert h
    split
    · simp
    · split
      · simp
      · split
        · simp
        · intro _
          omega

/-- lastStartedAt after a cascade: either untouched, or set to now after
passing the spacing test (so it never moves backwards in a run with
monotone clocks, and only grants move it). -/
theorem processQueueAux_last_cases (cfg : RLConfig) (now : Nat) :
    ∀ (q : List QueueWaiter) (a l : Nat) (tm : Bool),
      (processQueueAux cfg now a l tm q).1.lastStartedAt = l ∨
      (l ≤ now ∧ (processQueueAux cfg now a l tm q).1.lastStartedAt = now) := by
  intro q
  induction q with
  | nil =>
    intro a l tm
    rw [processQueueAux.eq_1]
    split
    · left; rfl
    · split <;> (left; rfl)
  | cons w rest ih =>
    intro a l tm
    rw [processQueueAux.eq_2]
    split
    · left; rfl
    · split
      · left; rfl
      · split
        · left; rfl
        · rename_i hwait
          have hl : l + cfg.minIntervalMs ≤ now := by omega
          split
          · rcases ih (a + 1) now tm with h | h
            · right
              exact ⟨by omega, h⟩
            · right
              exact ⟨by omega, h.2⟩
          · right
            exact ⟨by omega, rfl⟩

/-- A cascade that grants sets lastStartedAt to now. -/
theorem processQueueAux_grant_last (cfg : RLConfig) (now : Nat)
    (q : List QueueWaiter) (a l : Nat) (tm : Bool)
    (h : (processQueueAux cfg now a l tm q).2 ≠ []) :
    (processQueueAux cfg now a l tm q).1.lastStartedAt = now := by
  match q with
  | [] =>
    rw [processQueueAux.eq_1] at h ⊢
    revert h
    split
    · simp
    · split <;> simp
  | w :: rest =>
    rw [processQueueAux.eq_2] at h ⊢
    revert h
    split
    · simp
    · split
      · simp
      · split
        · simp
        · split
          · intro _
            rcases processQueueAux_last_cases cfg now rest (a + 1) now tm with h | h
            · exact h
            · exact h.2
          · intro _
            rfl

/-- A cascade that grants leaves active strictly positive. -/
theorem processQueueAux_grant_active (cfg : RLConfig) (now : Nat)
    (q : List QueueWaiter) (a l : Nat) (tm : Bool)
    (h : (processQueueAux cfg now a l tm q).2 ≠ []) :
    a + 1 ≤ (processQueueAux cfg now a l tm q).1.active := by
  match q with
  | [] =>
    rw [processQueueAux.eq_1] at h ⊢
    revert h
    split
    · simp
    · split <;> simp
  | w :: rest =>
    rw [processQueueAux.eq_2] at h ⊢
    revert h
    split
    · simp
    · split
      · simp
      · split
        · simp
        · split
          · intro _
            exact processQueueAux_active_ge cfg now rest (a + 1) now tm
          · intro _
            simp

/-- Two grants inside one synchronous cascade happen only when
minIntervalMs = 0 (otherwise the second evaluation schedules the retry
timer instead). -/
theorem processQueueAux_two_grants (cfg : RLConfig) (now : Nat)
    (q : List QueueWaiter) (a l : Nat) (tm : Bool)
    (h : 2 ≤ (processQueueAux cfg now a l tm q).2.length) :
    cfg.minIntervalMs = 0 := by
  match q with
  | [] =>
    rw [processQueueAux.eq_1] at h
    revert h
    split
    · simp
    · split <;> simp
  | w :: rest =>
    rw [processQueueAux.eq_2] at h
    revert h
    split
    · simp
    · split
      · simp
      · split
        · simp
        · split
          · intro h2
            have hne : (processQueueAux cfg now (a + 1) now tm rest).2 ≠ [] := by
              intro hemp
              simp only [hemp] at h2
              simp at h2
            have := processQueueAux_grant_cond cfg now rest (a + 1) now tm hne
            omega
          · simp


/-! ### Registry-level lemmas -/

theorem storeBack_apply (reg : Registry) (sid : String) (b : SessionBucket) (s : String) :
    storeBack reg sid b s =
      if s = sid then (if bucketLive b then some b else none) else reg s := by
  by_cases hs : s = sid <;> by_cases hb : bucketLive b <;>
    simp [storeBack, cleanupBucket, hs, hb]

/-- A bucket-wise property holding of every registered bucket. -/
def RegInv (P : SessionBucket → Prop) (reg : Registry) : Prop :=
  ∀ sid b, reg sid = some b → P b

theorem RegInv_empty (P : SessionBucket → Prop) : RegInv P emptyReg := by
  intro sid b h
  cases h

theorem RegInv_insert {P : SessionBucket → Prop} {reg : Registry} (h : RegInv P reg)
    (sid : String) {b : SessionBucket} (hb : P b) :
    RegInv P (fun s => if s = sid then some b else reg s) := by
  intro s b' hs
  by_cases hssid : s = sid
  · simp only [hssid, if_pos rfl] at hs
    cases Option.some.inj hs
    exact hb
  · simp only [if_neg hssid] at hs
    exact h s b' hs

theorem RegInv_storeBack {P : SessionBucket → Prop} {reg : Registry} (h : RegInv P reg)
    (sid : String) {b : SessionBucket} (hb : P b) : RegInv P (storeBack reg sid b) := by
  intro s b' hs
  rw [storeBack_apply] at hs
  split at hs
  · split at hs
    · cases Option.some.inj hs
      exact hb
    · cases hs
  · exact h s b' hs

theorem RegInv_getD {P : SessionBucket → Prop} {reg : Registry} (h : RegInv P reg)
    (hempty : P emptyBucket) (sid : String) : P ((reg sid).getD emptyBucket) := by
  cases hreg : reg sid with
  | none => simpa using hempty
  | some b => simpa using h sid b hreg

/-- storeBack on top of an insertion at the same credential: only live
buckets survive at that slot, and other slots keep the base registry,
mirroring the cleanupBucket discipline. -/
theorem RegInv_storeBack_insert_live {reg : Registry}
    (h : RegInv (fun b => bucketLive b = true) reg) (sid : String)
    (b0 b : SessionBucket) :
    RegInv (fun b => bucketLive b = true)
      (storeBack (fun s => if s = sid then some b0 else reg s) sid b) := by
  intro s b' hs
  rw [storeBack_apply] at hs
  by_cases hssid : s = sid
  · rw [if_pos hssid] at hs
    by_cases hlive : bucketLive b
    · rw [if_pos hlive] at hs
      cases Option.some.inj hs
      exact hlive
    · rw [if_neg hlive] at hs
      cases hs
  · rw [if_neg hssid] at hs
    have hreg : reg s = some b' := by
      simpa [hssid] using hs
    exact h s b' hreg

theorem RegInv_storeBack_live {reg : Registry}
    (h : RegInv (fun b => bucketLive b = true) reg) (sid : String) (b : SessionBucket) :
    RegInv (fun b => bucketLive b = true) (storeBack reg sid b) := by
  intro s b' hs
  rw [storeBack_apply] at hs
  split at hs
  · split at hs
    · rename_i hlive
      cases Option.some.inj hs
      exact hlive
    · cases hs
  · exact h s b' hs

/-- A step only touches the registry slot of its own credential. -/
theorem step_other (cfg : RLConfig) (t : Nat) (e : Ev) (reg : Registry) (s : String)
    (hs : s ≠ e.sid) : (step cfg t e reg).1 s = reg s := by
  cases e with
  | acq sid wid =>
    simp only [Ev.sid] at hs
    simp only [step, acquireLocalStep]
    split
    · simp [hs]
    · simp [storeBack_apply, hs]
  | rel sid =>
    simp only [Ev.sid] at hs
    simp only [step, releaseStep]
    cases hreg : reg sid with
    | none => simp
    | some b => simp [storeBack_apply, hs]
  | fire sid =>
    simp only [Ev.sid] at hs
    simp only [step, timerFireStep]
    cases hreg : reg sid with
    | none => simp
    | some b => simp [storeBack_apply, hs]
  | tmo sid wid =>
    simp only [Ev.sid] at hs
    simp only [step, timeoutStep]
    cases hreg : reg sid with
    | none => simp
    | some b =>
      by_cases hany : (b.queue.any fun w => decide (w.wid = wid)) = true
      · simp [hany, storeBack_apply, hs]
      · simp [hany]

/-! ### Step preservation of the bucket invariants -/

theorem step_preserves_active (cfg : RLConfig) (t : Nat) (e : Ev) (reg : Registry)
    (h : RegInv (fun b => b.active ≤ cfg.maxConcurrent) reg) :
    RegInv (fun b => b.active ≤ cfg.maxConcurrent) (step cfg t e reg).1 := by
  have hempty : emptyBucket.active ≤ cfg.maxConcurrent := Nat.zero_le _
  cases e with
  | acq sid wid =>
    simp only [step, acquireLocalStep]
    split
    · exact RegInv_insert h sid (RegInv_getD h hempty sid)
    · refine RegInv_storeBack (RegInv_insert h sid (RegInv_getD h hempty sid)) sid ?_
      exact processQueueAux_active_le cfg t _ _ _ _ (RegInv_getD h hempty sid)
  | rel sid =>
    simp only [step, releaseStep]
    cases hreg : reg sid with
    | none => exact h
    | some b =>
      refine RegInv_storeBack h sid ?_
      exact processQueueAux_active_le cfg t _ _ _ _
        (Nat.le_trans (Nat.sub_le _ _) (h sid b hreg))
  | fire sid =>
    simp only [step, timerFireStep]
    cases hreg : reg sid with
    | none => exact h
    | some b =>
      refine RegInv_storeBack h sid ?_
      exact processQueueAux_active_le cfg t _ _ _ _ (h sid b hreg)
  | tmo sid wid =>
    simp only [step, timeoutStep]
    cases hreg : reg sid with
    | none => exact h
    | some b =>
      by_cases hany : (b.queue.any fun w => decide (w.wid = wid)) = true
      · simp only [hany, if_true]
        exact RegInv_storeBack h sid (h sid b hreg)
      · simp only [hany, if_false]
        exact h

theorem step_preserves_qlen (cfg : RLConfig) (t : Nat) (e : Ev) (reg : Registry)
    (h : RegInv (fun b => b.queue.length ≤ cfg.maxQueuePerSession) reg) :
    RegInv (fun b => b.queue.length ≤ cfg.maxQueuePerSession) (step cfg t e reg).1 := by
  have hempty : emptyBucket.queue.length ≤ cfg.maxQueuePerSession := Nat.zero_le _
  cases e with
  | acq sid wid =>
    simp only [step, acquireLocalStep]
    split
    · exact RegInv_insert h sid (RegInv_getD h hempty sid)
    · rename_i hover
      refine RegInv_storeBack (RegInv_insert h sid (RegInv_getD h hempty sid)) sid ?_
      refine Nat.le_trans (processQueueAux_queue_len cfg t _ _ _ _) ?_
      simp only [List.length_append, List.length_cons, List.length_nil]
      omega
  | rel sid =>
    simp only [step, releaseStep]
    cases hreg : reg sid with
    | none => exact h
    | some b =>
      refine RegInv_storeBack h sid ?_
      exact Nat.le_trans (processQueueAux_queue_len cfg t _ _ _ _) (h sid b hreg)
  | fire sid =>
    simp only [step, timerFireStep]
    cases hreg : reg sid with
    | none => exact h
    | some b =>
      refine RegInv_storeBack h sid ?_
      exact Nat.le_trans (processQueueAux_queue_len cfg t _ _ _ _) (h sid b hreg)
  | tmo sid wid =>
    simp only [step, timeoutStep]
    cases hreg : reg sid with
    | none => exact h
    | some b =>
      by_cases hany : (b.queue.any fun w => decide (w.wid = wid)) = true
      · simp only [hany, if_true]
        refine RegInv_storeBack h sid ?_
        exact Nat.le_trans (List.length_eraseP_le _) (h sid b hreg)
      · simp only [hany, if_false]
        exact h

theorem step_preserves_live (cfg : RLConfig) (t : Nat) (e : Ev) (reg : Registry)
    (hq : 1 ≤ cfg.maxQueuePerSession)
    (h : RegInv (fun b => bucketLive b = true) reg) :
    RegInv (fun b => bucketLive b = true) (step cfg t e reg).1 := by
  cases e with
  | acq sid wid =>
    simp only [step, acquireLocalStep]
    split
    · rename_i hover
      cases hreg : reg sid with
      | none =>
        rw [hreg] at hover
        simp [emptyBucket] at hover
        omega
      | some b =>
        exact RegInv_insert h sid (h sid b hreg)
    · exact RegInv_storeBack_insert_live h sid _ _
  | rel sid =>
    simp only [step, releaseStep]
    cases hreg : reg sid with
    | none => exact h
    | some b => exact RegInv_storeBack_live h sid _
  | fire sid =>
    simp only [step, timerFireStep]
    cases hreg : reg sid with
    | none => exact h
    | some b => exact RegInv_storeBack_live h sid _
  | tmo sid wid =>
    simp only [step, timeoutStep]
    cases hreg : reg sid with
    | none => exact h
    | some b =>
      by_cases hany : (b.queue.any fun w => decide (w.wid = wid)) = true
      · simp only [hany, if_true]
        exact RegInv_storeBack_live h sid _
      · simp only [hany, if_false]
        exact h

/-- Fold a step invariant over a whole run. -/
theorem runRL_inv (cfg : RLConfig) (P : SessionBucket → Prop)
    (hstep : ∀ t e reg, RegInv P reg → RegInv P (step cfg t e reg).1) :
    ∀ (tr : List (Nat × Ev)) (reg : Registry),
      RegInv P reg → RegInv P (runRL cfg tr reg).1 := by
  intro tr
  induction tr with
  | nil =>
    intro reg h
    exact h
  | cons te rest ih =>
    intro reg h
    obtain ⟨t, e⟩ := te
    simpa [runRL] using ih _ (hstep t e reg h)


/-! ### Bridge lemmas at the processQueue level -/

theorem processQueue_grant_cond (cfg : RLConfig) (now : Nat) (b : SessionBucket)
    (h : (processQueue cfg now b).2 ≠ []) :
    b.lastStartedAt + cfg.minIntervalMs ≤ now :=
  processQueueAux_grant_cond cfg now b.queue b.active b.lastStartedAt b.timer h

theorem processQueue_grant_last (cfg : RLConfig) (now : Nat) (b : SessionBucket)
    (h : (processQueue cfg now b).2 ≠ []) :
    (processQueue cfg now b).1.lastStartedAt = now :=
  processQueueAux_grant_last cfg now b.queue b.active b.lastStartedAt b.timer h

theorem processQueue_grant_active (cfg : RLConfig) (now : Nat) (b : SessionBucket)
    (h : (processQueue cfg now b).2 ≠ []) :
    b.active + 1 ≤ (processQueue cfg now b).1.active :=
  processQueueAux_grant_active cfg now b.queue b.active b.lastStartedAt b.timer h

theorem processQueue_last_cases (cfg : RLConfig) (now : Nat) (b : SessionBucket) :
    (processQueue cfg now b).1.lastStartedAt = b.lastStartedAt ∨
    (b.lastStartedAt ≤ now ∧ (processQueue cfg now b).1.lastStartedAt = now) :=
  processQueueAux_last_cases cfg now b.queue b.active b.lastStartedAt b.timer

theorem bucketLive_of_active {b : SessionBucket} (h : 0 < b.active) :
    bucketLive b = true := by
  unfold bucketLive
  rw [decide_eq_true h]
  simp

/-- After a granting cascade, the bucket written back is live (the grant
left active positive), so it is kept in the registry with the cascade's
instant recorded as lastStartedAt. -/
theorem storeBack_grants (cfg : RLConfig) (now : Nat) (reg : Registry) (sid : String)
    (c : SessionBucket) (hg : (processQueue cfg now c).2 ≠ []) :
    storeBack reg sid (processQueue cfg now c).1 sid = some (processQueue cfg now c).1 ∧
    (processQueue cfg now c).1.lastStartedAt = now := by
  constructor
  · rw [storeBack_apply, if_pos rfl,
      if_pos (bucketLive_of_active (by
        have := processQueue_grant_active cfg now c hg
        omega))]
  · exact processQueue_grant_last cfg now c hg

/-! ### Grant spacing at step level -/

/-- Any grant cascade of a step for a credential whose bucket was already
registered passed the spacing test against that bucket's lastStartedAt. -/
theorem step_grants_spacing (cfg : RLConfig) (t : Nat) (e : Ev) (reg : Registry)
    (b : SessionBucket) (hb : reg e.sid = some b)
    (hg : (step cfg t e reg).2 ≠ []) :
    b.lastStartedAt + cfg.minIntervalMs ≤ t := by
  cases e with
  | acq sid wid =>
    simp only [Ev.sid] at hb
    simp only [step, acquireLocalStep, hb] at hg
    revert hg
    split
    · simp
    · intro hg
      have hc := processQueue_grant_cond cfg t _ hg
      exact hc
  | rel sid =>
    simp only [Ev.sid] at hb
    simp only [step, releaseStep, hb] at hg
    have hc := processQueue_grant_cond cfg t _ hg
    exact hc
  | fire sid =>
    simp only [Ev.sid] at hb
    simp only [step, timerFireStep, hb] at hg
    have hc := processQueue_grant_cond cfg t _ hg
    exact hc
  | tmo sid wid =>
    simp only [step, timeoutStep] at hg
    exact absurd rfl hg

/-- After a step that granted, the credential's bucket is still registered
and records the step's instant as lastStartedAt. -/
theorem step_grants_newLast (cfg : RLConfig) (t : Nat) (e : Ev) (reg : Registry)
    (hg : (step cfg t e reg).2 ≠ []) :
    ∃ b', (step cfg t e reg).1 e.sid = some b' ∧ b'.lastStartedAt = t := by
  cases e with
  | acq sid wid =>
    simp only [step, acquireLocalStep, Ev.sid] at hg ⊢
    revert hg
    split
    · simp
    · intro hg
      obtain ⟨h1, h2⟩ := storeBack_grants cfg t
        (fun s => if s = sid then some ((reg sid).getD emptyBucket) else reg s) sid
        { (reg sid).getD emptyBucket with
          queue := ((reg sid).getD emptyBucket).queue ++ [mkWaiter cfg t wid] } hg
      exact ⟨_, h1, h2⟩
  | rel sid =>
    cases hreg : reg sid with
    | none =>
      simp only [step, releaseStep, hreg] at hg
      exact absurd rfl hg
    | some b =>
      simp only [step, releaseStep, Ev.sid, hreg] at hg ⊢
      obtain ⟨h1, h2⟩ := storeBack_grants cfg t reg sid
        { b with active := b.active - 1 } hg
      exact ⟨_, h1, h2⟩
  | fire sid =>
    cases hreg : reg sid with
    | none =>
      simp only [step, timerFireStep, hreg] at hg
      exact absurd rfl hg
    | some b =>
      simp only [step, timerFireStep, Ev.sid, hreg] at hg ⊢
      obtain ⟨h1, h2⟩ := storeBack_grants cfg t reg sid
        { b with timer := false } hg
      exact ⟨_, h1, h2⟩
  | tmo sid wid =>
    simp only [step, timeoutStep] at hg
    exact absurd rfl hg

/-- lastStartedAt never decreases across a step while the bucket stays
registered: only a grant moves it, and only forward to the grant instant. -/
theorem step_last_mono (cfg : RLConfig) (t : Nat) (e : Ev) (reg : Registry)
    (b b' : SessionBucket) (hb : reg e.sid = some b)
    (hb' : (step cfg t e reg).1 e.sid = some b') :
    b.lastStartedAt ≤ b'.lastStartedAt := by
  cases e with
  | acq sid wid =>
    simp only [Ev.sid] at hb
    simp only [step, acquireLocalStep, Ev.sid, hb] at hb'
    revert hb'
    split
    · intro hb'
      replace hb' : (if sid = sid then some b else reg sid) = some b' := hb'
      rw [if_pos rfl] at hb'
      cases Option.some.inj hb'
      exact Nat.le_refl _
    · intro hb'
      replace hb' : storeBack (fun s => if s = sid then some b else reg s) sid
          (processQueue cfg t { b with queue := b.queue ++ [mkWaiter cfg t wid] }).1 sid
          = some b' := hb'
      rw [storeBack_apply, if_pos rfl] at hb'
      split at hb'
      · cases Option.some.inj hb'
        rcases processQueue_last_cases cfg t
            { b with queue := b.queue ++ [mkWaiter cfg t wid] } with hc | hc
        · exact Nat.le_of_eq hc.symm
        · rw [hc.2]
          exact hc.1
      · cases hb'
  | rel sid =>
    simp only [Ev.sid] at hb
    simp only [step, releaseStep, Ev.sid, hb] at hb'
    replace hb' : storeBack reg sid
        (processQueue cfg t { b with active := b.active - 1 }).1 sid = some b' := hb'
    rw [storeBack_apply, if_pos rfl] at hb'
    split at hb'
    · cases Option.some.inj hb'
      rcases processQueue_last_cases cfg t { b with active := b.active - 1 } with hc | hc
      · exact Nat.le_of_eq hc.symm
      · rw [hc.2]
        exact hc.1
    · cases hb'
  | fire sid =>
    simp only [Ev.sid] at hb
    simp only [step, timerFireStep, Ev.sid, hb] at hb'
    replace hb' : storeBack reg sid
        (processQueue cfg t { b with timer := false }).1 sid = some b' := hb'
    rw [storeBack_apply, if_pos rfl] at hb'
    split at hb'
    · cases Option.some.inj hb'
      rcases processQueue_last_cases cfg t { b with timer := false } with hc | hc
      · exact Nat.le_of_eq hc.symm
      · rw [hc.2]
        exact hc.1
    · cases hb'
  | tmo sid wid =>
    simp only [Ev.sid] at hb
    simp only [step, timeoutStep, Ev.sid, hb] at hb'
    revert hb'
    by_cases hany : (b.queue.any fun w => decide (w.wid = wid)) = true
    · rw [if_pos hany]
      intro hb'
      replace hb' : storeBack reg sid
          { b with queue := b.queue.eraseP (fun w => w.wid = wid) } sid = some b' := hb'
      rw [storeBack_apply, if_pos rfl] at hb'
      split at hb'
      · cases Option.some.inj hb'
        exact Nat.le_refl _
      · cases hb'
    · rw [if_neg hany]
      intro hb'
      replace hb' : reg sid = some b' := hb'
      rw [hb] at hb'
      cases Option.some.inj hb'
      exact Nat.le_refl _


/-! ### Lemmas about the distributed-mode scripts -/

/-- A granted acquire rewrites both keys: inflight is incremented with a
fresh inflightTtlMs expiry and the interval key holds now + minIntervalMs
with a fresh intervalTtlMs expiry. -/
theorem redisAcquire_grant_state (st : AdmissionState) (t m maxC ttl ittl : Nat)
    (h : (redisAcquire st t m maxC ttl ittl).1.granted = true) :
    (redisAcquire st t m maxC ttl ittl).2 =
      { inflight := some ⟨redisGet st.inflight t + 1, t + ttl⟩,
        interval := some ⟨t + m, t + ittl⟩ } := by
  simp only [redisAcquire] at h ⊢
  split at h
  · simp at h
  · split at h
    · simp at h
    · rename_i h1 h2
      rw [if_neg h1, if_neg h2]

/-- A denied acquire leaves the record untouched. -/
theorem redisAcquire_deny_state (st : AdmissionState) (t m maxC ttl ittl : Nat)
    (h : (redisAcquire st t m maxC ttl ittl).1.granted = false) :
    (redisAcquire st t m maxC ttl ittl).2 = st := by
  simp only [redisAcquire] at h ⊢
  split at h
  · rename_i h1
    rw [if_pos h1]
  · split at h
    · rename_i h1 h2
      rw [if_neg h1, if_pos h2]
    · simp at h

/-- The acquire script grants exactly when the live inflight count is
below maxConcurrent and the live next-allowed-at has been reached. -/
theorem redisAcquire_grant_iff (st : AdmissionState) (t m maxC ttl ittl : Nat) :
    (redisAcquire st t m maxC ttl ittl).1.granted = true ↔
      (redisGet st.inflight t < maxC ∧ redisGet st.interval t ≤ t) := by
  simp only [redisAcquire]
  split
  · rename_i h1
    simp
    omega
  · split
    · rename_i h1 h2
      simp
      omega
    · rename_i h1 h2
      simp
      omega

/-- Whoever is granted with the interval key as written by a previous
grant at t1 starts at least minIntervalMs after t1: either the key is
still live and carries t1 + m, or it expired, which takes at least
intervalTtl m >= m milliseconds. -/
theorem redisAcquire_spacing (st2 : AdmissionState) (t1 t2 m maxC2 ttl2 ittl2 : Nat)
    (hint : st2.interval = some ⟨t1 + m, t1 + intervalTtl m⟩)
    (h2 : (redisAcquire st2 t2 m maxC2 ttl2 ittl2).1.granted = true) :
    t1 + m ≤ t2 := by
  have hm : m ≤ intervalTtl m :=
    Nat.le_trans (by omega) (Nat.le_max_left (m * 50) 60000)
  have h := (redisAcquire_grant_iff st2 t2 m maxC2 ttl2 ittl2).1 h2
  rw [hint] at h
  simp only [redisGet] at h
  rcases h with ⟨-, h⟩
  split at h <;> omega

/-- The release script never touches the interval key. -/
theorem redisRelease_interval (st : AdmissionState) (t : Nat) :
    (redisRelease st t).2.interval = st.interval := by
  simp only [redisRelease]
  by_cases h : redisGet st.inflight t ≤ 1
  · rw [if_pos h]
  · rw [if_neg h]
    cases st.inflight <;> rfl

/-- When the live count is at most one, release deletes the key and
returns 0. -/
theorem redisRelease_le_one (st : AdmissionState) (t : Nat)
    (h : redisGet st.inflight t ≤ 1) :
    redisRelease st t = (0, { st with inflight := none }) := by
  simp only [redisRelease, if_pos h]

/-- When the live count exceeds one, release decrements it in place,
keeping the expiry. -/
theorem redisRelease_gt_one (st : AdmissionState) (t : Nat)
    (h : 1 < redisGet st.inflight t) :
    ∃ r, st.inflight = some r ∧
      redisRelease st t =
        (redisGet st.inflight t - 1,
         { st with inflight := some ⟨redisGet st.inflight t - 1, r.expiresAt⟩ }) := by
  cases hst : st.inflight with
  | none =>
    rw [hst] at h
    simp [redisGet] at h
  | some r =>
    refine ⟨r, rfl, ?_⟩
    rw [redisRelease, if_neg (by omega), hst]

/-- Live count after a decrementing release, read at the same instant. -/
theorem redisRelease_get_gt_one (st : AdmissionState) (t : Nat)
    (h : 1 < redisGet st.inflight t) :
    redisGet (redisRelease st t).2.inflight t = redisGet st.inflight t - 1 := by
  obtain ⟨r, hst, heq⟩ := redisRelease_gt_one st t h
  rw [heq]
  have hlive : t < r.expiresAt := by
    rw [hst] at h
    simp only [redisGet] at h
    by_contra hc
    rw [if_neg hc] at h
    omega
  simp [redisGet, hlive]


/-! ### Remaining helper lemmas -/

theorem processQueueAux_nil (cfg : RLConfig) (now a l : Nat) (tm : Bool) :
    processQueueAux cfg now a l tm [] = (⟨a, l, [], tm⟩, []) := by
  rw [processQueueAux.eq_1]
  split
  · rfl
  · split <;> rfl

/-- Two grants in one step force minIntervalMs = 0. -/
theorem step_two_grants (cfg : RLConfig) (t : Nat) (e : Ev) (reg : Registry)
    (h : 2 ≤ (step cfg t e reg).2.length) : cfg.minIntervalMs = 0 := by
  cases e with
  | acq sid wid =>
    simp only [step, acquireLocalStep] at h
    revert h
    split
    · simp
    · intro h
      exact processQueueAux_two_grants cfg t _ _ _ _ h
  | rel sid =>
    simp only [step, releaseStep] at h
    revert h
    cases hreg : reg sid with
    | none => simp
    | some b =>
      intro h
      exact processQueueAux_two_grants cfg t _ _ _ _ h
  | fire sid =>
    simp only [step, timerFireStep] at h
    revert h
    cases hreg : reg sid with
    | none => simp
    | some b =>
      intro h
      exact processQueueAux_two_grants cfg t _ _ _ _ h
  | tmo sid wid =>
    simp only [step, timeoutStep] at h
    simp at h

theorem Task.applyUpdate_tid (t : Task) (u : TaskUpdate) :
    (t.applyUpdate u).tid = t.tid := rfl

theorem Task.applyUpdate_callback (t : Task) (u : TaskUpdate) :
    (t.applyUpdate u).callback_url = t.callback_url := rfl

/-- Reading the updated record: the merge is visible through get. -/
theorem taskStoreGet_update (store : TaskStore) (tid : Nat) (u : TaskUpdate) :
    taskStoreGet (taskStoreUpdate store tid u) tid =
      (taskStoreGet store tid).map (fun t => t.applyUpdate u) := by
  induction store with
  | nil => rfl
  | cons t rest ih =>
    by_cases h : t.tid = tid
    · simp [taskStoreGet, taskStoreUpdate, List.find?, h, Task.applyUpdate_tid]
    · simp only [taskStoreGet, taskStoreUpdate, List.map_cons, List.find?] at ih ⊢
      simp only [if_neg h, decide_eq_false h]
      exact ih


/-! ### Claim theorems -/

/-- Claim C1: for every credential, at every instant, the number of
granted-and-unreleased acquisitions (the bucket's active counter) is at
most maxConcurrent in local mode — every registry reachable from the
empty one by any timed event trace satisfies the bound — and in
distributed mode the acquire script denies (with reason "concurrency")
whenever the live inflight count is at least maxConcurrent. -/
theorem claim_C1 :
    (∀ (cfg : RLConfig) (tr : List (Nat × Ev)) (sid : String) (b : SessionBucket),
       (runRL cfg tr emptyReg).1 sid = some b → b.active ≤ cfg.maxConcurrent) ∧
    (∀ (st : AdmissionState) (now m maxC ttl ittl : Nat),
       maxC ≤ redisGet st.inflight now →
       (redisAcquire st now m maxC ttl ittl).1.granted = false ∧
       (redisAcquire st now m maxC ttl ittl).1.reason = "concurrency") := by
  constructor
  · intro cfg tr sid b h
    exact runRL_inv cfg (fun b => b.active ≤ cfg.maxConcurrent)
      (fun t e reg hr => step_preserves_active cfg t e reg hr) tr emptyReg
      (RegInv_empty _) sid b h
  · intro st now m maxC ttl ittl h
    constructor <;> simp [redisAcquire, if_pos h]

theorem claim_C1_witness :
    ((runRL ⟨true, 0, 2, 5, 5000, 60⟩ [(0, Ev.acq "s" 1)] emptyReg).1 "s" =
        some ⟨1, 0, [], false⟩) ∧
    (1 : Nat) ≤ 2 ∧
    (3 : Nat) ≤ redisGet (some ⟨3, 10⟩) 5 ∧
    (redisAcquire ⟨some ⟨3, 10⟩, none⟩ 5 100 3 1000 1000).1.granted = false :=
  ⟨by decide,
   claim_C1.1 ⟨true, 0, 2, 5, 5000, 60⟩ [(0, Ev.acq "s" 1)] "s" ⟨1, 0, [], false⟩ (by decide),
   by decide,
   (claim_C1.2 ⟨some ⟨3, 10⟩, none⟩ 5 100 3 1000 1000 (by decide)).1⟩

/-- Claim C9: after any event trace from the empty registry (with the
constructor-guaranteed maxQueuePerSession >= 1), every registered bucket
is live — active > 0, or a queued waiter, or a pending retry timer — so a
bucket is present in the registry iff it holds live state, and idle
credentials leak no registry entry; the second conjunct ties bucketLive
to exactly those three conditions of cleanupBucket. -/
theorem claim_C9 :
    (∀ (cfg : RLConfig) (tr : List (Nat × Ev)), 1 ≤ cfg.maxQueuePerSession →
       ∀ (sid : String) (b : SessionBucket),
         (runRL cfg tr emptyReg).1 sid = some b → bucketLive b = true) ∧
    (∀ b : SessionBucket,
       bucketLive b = true ↔ (0 < b.active ∨ b.queue ≠ [] ∨ b.timer = true)) := by
  constructor
  · intro cfg tr hq sid b h
    exact runRL_inv cfg (fun b => bucketLive b = true)
      (fun t e reg hr => step_preserves_live cfg t e reg hq hr) tr emptyReg
      (RegInv_empty _) sid b h
  · intro b
    simp [bucketLive, List.isEmpty_iff, or_assoc]

theorem claim_C9_witness :
    bucketLive ⟨1, 0, [], false⟩ = true ∧ (1 : Nat) ≤ 5 :=
  ⟨claim_C9.1 ⟨true, 0, 2, 5, 5000, 60⟩ [(0, Ev.acq "s" 1)] (by decide) "s"
      ⟨1, 0, [], false⟩ (by decide),
   by decide⟩

/-- Claim C4: an acquire arriving while the credential's queue already
holds maxQueuePerSession waiters fails immediately with the overflow
error: the outcome is overflow, no waiter is granted, and the whole
registry — this credential's bucket and every other credential's — is
left exactly as it was; moreover the queue length of every registered
bucket never exceeds maxQueuePerSession along any trace. -/
theorem claim_C4 :
    (∀ (cfg : RLConfig) (now : Nat) (sid : String) (wid : Nat) (reg : Registry)
       (b : SessionBucket), reg sid = some b →
       b.queue.length = cfg.maxQueuePerSession →
       (acquireLocalStep cfg now sid wid reg).1 = .overflow ∧
       (∀ s, (acquireLocalStep cfg now sid wid reg).2.1 s = reg s) ∧
       (acquireLocalStep cfg now sid wid reg).2.2 = []) ∧
    (∀ (cfg : RLConfig) (tr : List (Nat × Ev)) (sid : String) (b : SessionBucket),
       (runRL cfg tr emptyReg).1 sid = some b →
       b.queue.length ≤ cfg.maxQueuePerSession) := by
  constructor
  · intro cfg now sid wid reg b hreg hfull
    have hcond : cfg.maxQueuePerSession ≤ ((reg sid).getD emptyBucket).queue.length := by
      rw [hreg]
      simp [hfull]
    refine ⟨?_, ?_, ?_⟩
    · simp [acquireLocalStep, if_pos hcond]
    · intro s
      simp only [acquireLocalStep, if_pos hcond]
      by_cases hs : s = sid
      · subst hs
        simp [hreg]
      · simp [hs]
    · simp [acquireLocalStep, if_pos hcond]
  · intro cfg tr sid b h
    exact runRL_inv cfg (fun b => b.queue.length ≤ cfg.maxQueuePerSession)
      (fun t e reg hr => step_preserves_qlen cfg t e reg hr) tr emptyReg
      (RegInv_empty _) sid b h

theorem claim_C4_witness :
    ((acquireLocalStep ⟨true, 0, 2, 1, 5000, 60⟩ 3 "s" 9
        (fun s => if s = "s" then some ⟨0, 0, [⟨1, some 5000⟩], false⟩ else none)).1 =
      .overflow) ∧
    ((acquireLocalStep ⟨true, 0, 2, 1, 5000, 60⟩ 3 "s" 9
        (fun s => if s = "s" then some ⟨0, 0, [⟨1, some 5000⟩], false⟩ else none)).2.1 "t" =
      none) :=
  have h := claim_C4.1 ⟨true, 0, 2, 1, 5000, 60⟩ 3 "s" 9
    (fun s => if s = "s" then some ⟨0, 0, [⟨1, some 5000⟩], false⟩ else none)
    ⟨0, 0, [⟨1, some 5000⟩], false⟩ (by decide) (by decide)
  ⟨h.1, h.2.1 "t"⟩


/-- Claim C3: the distributed decision is one atomic check-and-set,
modelled by the single pure function redisAcquire on the admission
record: it grants exactly when the live inflight count is below
maxConcurrent and the live next-allowed-at is at most now; on grant it
atomically increments inflight (stamping the inflightTtlMs expiry) and
sets next-allowed-at to now + minIntervalMs (with the intervalTtlMs
expiry); a denial leaves the record untouched; release deletes the
inflight key when the live count is at most 1 and otherwise decrements it
in place keeping its expiry, never touching the interval key. -/
theorem claim_C3 :
    (∀ (st : AdmissionState) (now m maxC ttl ittl : Nat),
       ((redisAcquire st now m maxC ttl ittl).1.granted = true ↔
         (redisGet st.inflight now < maxC ∧ redisGet st.interval now ≤ now))) ∧
    (∀ (st : AdmissionState) (now m maxC ttl ittl : Nat),
       (redisAcquire st now m maxC ttl ittl).1.granted = true →
       (redisAcquire st now m maxC ttl ittl).2 =
         { inflight := some ⟨redisGet st.inflight now + 1, now + ttl⟩,
           interval := some ⟨now + m, now + ittl⟩ }) ∧
    (∀ (st : AdmissionState) (now m maxC ttl ittl : Nat),
       (redisAcquire st now m maxC ttl ittl).1.granted = false →
       (redisAcquire st now m maxC ttl ittl).2 = st) ∧
    (∀ (st : AdmissionState) (now : Nat), redisGet st.inflight now ≤ 1 →
       redisRelease st now = (0, { st with inflight := none })) ∧
    (∀ (st : AdmissionState) (now : Nat), 1 < redisGet st.inflight now →
       ∃ r, st.inflight = some r ∧
         redisRelease st now =
           (redisGet st.inflight now - 1,
            { st with inflight := some ⟨redisGet st.inflight now - 1, r.expiresAt⟩ })) :=
  ⟨redisAcquire_grant_iff, redisAcquire_grant_state, redisAcquire_deny_state,
   redisRelease_le_one, redisRelease_gt_one⟩

theorem claim_C3_witness :
    ((redisAcquire ⟨none, none⟩ 0 10 2 100 200).2 =
      { inflight := some ⟨1, 100⟩, interval := some ⟨10, 200⟩ }) ∧
    redisRelease ⟨some ⟨1, 50⟩, none⟩ 0 = (0, ⟨none, none⟩) :=
  ⟨claim_C3.2.1 ⟨none, none⟩ 0 10 2 100 200 (by decide),
   claim_C3.2.2.2.1 ⟨some ⟨1, 50⟩, none⟩ 0 (by decide)⟩

/-- Claim C6: when the limiter is enabled, the credential non-empty and a
distributed client present, a distributed acquire that throws is not
propagated: acquire logs and takes the local-admission path for that
call, so the caller never sees the distributed error. -/
theorem claim_C6 (cfg : RLConfig) (sid : String) (e : String)
    (henab : cfg.enabled = true) (hsid : sid ≠ "") :
    acquireTop cfg sid true (.error e) = .localFallback := by
  simp [acquireTop, henab, hsid]

theorem claim_C6_witness :
    acquireTop ⟨true, 200, 20, 2000, 120000, 60⟩ "sess" true (.error "boom") =
      .localFallback :=
  claim_C6 ⟨true, 200, 20, 2000, 120000, 60⟩ "sess" "boom" rfl (by decide)

/-- Claim C5: every waiter enqueued with a positive queueTimeoutMs
carries the absolute deadline acquire-time + queueTimeoutMs; when its
timeout fires while it still sits in the queue, it alone is removed (the
queue becomes the other waiters in their original order) and its acquire
is rejected with the timeout error, while other credentials' slots are
untouched; in distributed mode an iteration of the polling loop whose
instant has reached the deadline throws the timeout error. -/
theorem claim_C5 :
    (∀ (cfg : RLConfig) (now wid : Nat), 0 < cfg.queueTimeoutMs →
       (mkWaiter cfg now wid).deadline = some (now + cfg.queueTimeoutMs)) ∧
    (∀ (sid : String) (wid : Nat) (reg : Registry) (b : SessionBucket),
       reg sid = some b → (∃ w ∈ b.queue, w.wid = wid) →
       (timeoutStep sid wid reg).2 = true ∧
       (∃ w l1 l2, w.wid = wid ∧ (∀ w2 ∈ l1, w2.wid ≠ wid) ∧
         b.queue = l1 ++ w :: l2 ∧
         (timeoutStep sid wid reg).1 sid =
           (if bucketLive { b with queue := l1 ++ l2 }
            then some { b with queue := l1 ++ l2 } else none)) ∧
       (∀ s, s ≠ sid → (timeoutStep sid wid reg).1 s = reg s)) ∧
    (∀ (cfg : RLConfig) (ttl deadlineAt now rand : Nat) (st : AdmissionState),
       deadlineAt ≤ now →
       distIter cfg ttl deadlineAt now rand st = .timeoutErr) := by
  refine ⟨?_, ?_, ?_⟩
  · intro cfg now wid h
    simp [mkWaiter, if_pos h]
  · intro sid wid reg b hreg hmem
    obtain ⟨w, hwmem, hwid⟩ := hmem
    have hp : (fun w => decide (w.wid = wid)) w = true := by simp [hwid]
    have hany : (b.queue.any fun w => decide (w.wid = wid)) = true :=
      List.any_eq_true.2 ⟨w, hwmem, hp⟩
    obtain ⟨a, l1, l2, hl1, hpa, hsplit, herase⟩ :=
      @List.exists_of_eraseP QueueWaiter (fun w => decide (w.wid = wid)) b.queue w hwmem hp
    refine ⟨?_, ⟨a, l1, l2, of_decide_eq_true hpa, ?_, hsplit, ?_⟩, ?_⟩
    · simp only [timeoutStep, hreg, if_pos hany]
    · intro w2 hw2
      have := hl1 w2 hw2
      simp at this
      exact this
    · simp only [timeoutStep, hreg, if_pos hany]
      rw [herase]
      rw [storeBack_apply, if_pos rfl]
    · intro s hs
      simp only [timeoutStep, hreg, if_pos hany]
      rw [storeBack_apply]
      simp [hs]
  · intro cfg ttl deadlineAt now rand st h
    simp [distIter, if_pos h]

theorem claim_C5_witness :
    ((mkWaiter ⟨true, 100, 1, 10, 1000, 60⟩ 7 3).deadline = some 1007) ∧
    ((timeoutStep "s" 1
        (fun s => if s = "s" then some ⟨0, 0, [⟨1, some 99⟩], false⟩ else none)).2 = true) ∧
    distIter ⟨true, 100, 1, 10, 1000, 60⟩ 5000 50 60 0 ⟨none, none⟩ = .timeoutErr :=
  ⟨claim_C5.1 ⟨true, 100, 1, 10, 1000, 60⟩ 7 3 (by decide),
   (claim_C5.2.1 "s" 1 (fun s => if s = "s" then some ⟨0, 0, [⟨1, some 99⟩], false⟩ else none)
      ⟨0, 0, [⟨1, some 99⟩], false⟩ (by decide) (by decide)).1,
   claim_C5.2.2 ⟨true, 100, 1, 10, 1000, 60⟩ 5000 50 60 0 ⟨none, none⟩ (by decide)⟩

/-- Claim C10: both release closures are idempotent through their
released flag — a second (or any later) invocation leaves the state
exactly as the first left it; a first local release on a registered
bucket with an empty queue decrements active by one (Nat truncated
subtraction, the image of the Math.max(0, active - 1) clamp, so active
can never go below zero) and garbage-collects the bucket when it becomes
dead; a first distributed release deletes the inflight key at live count
at most one and otherwise decrements it by exactly one. -/
theorem claim_C10 :
    (∀ (cfg : RLConfig) (now now2 : Nat) (sid : String) (s : Bool × Registry),
       localReleaseCall cfg now2 sid (localReleaseCall cfg now sid s) =
         localReleaseCall cfg now sid s) ∧
    (∀ (now now2 : Nat) (s : Bool × AdmissionState),
       distReleaseCall now2 (distReleaseCall now s) = distReleaseCall now s) ∧
    (∀ (cfg : RLConfig) (now : Nat) (sid : String) (reg : Registry) (b : SessionBucket),
       reg sid = some b → b.queue = [] →
       (releaseStep cfg now sid reg).1 sid =
         (if bucketLive { b with active := b.active - 1 }
          then some { b with active := b.active - 1 } else none) ∧
       (releaseStep cfg now sid reg).2 = []) ∧
    (∀ (st : AdmissionState) (now : Nat), redisGet st.inflight now ≤ 1 →
       (redisRelease st now).2.inflight = none) ∧
    (∀ (st : AdmissionState) (now : Nat), 1 < redisGet st.inflight now →
       redisGet (redisRelease st now).2.inflight now = redisGet st.inflight now - 1) := by
  refine ⟨?_, ?_, ?_, ?_, ?_⟩
  · intro cfg now now2 sid s
    by_cases h : s.1
    · simp [localReleaseCall, h]
    · simp [localReleaseCall, h]
  · intro now now2 s
    by_cases h : s.1
    · simp [distReleaseCall, h]
    · simp [distReleaseCall, h]
  · intro cfg now sid reg b hreg hq
    obtain ⟨a, l, q, tm⟩ := b
    simp only at hq
    subst hq
    constructor
    · simp only [releaseStep, hreg, processQueue, processQueueAux_nil]
      rw [storeBack_apply, if_pos rfl]
    · simp only [releaseStep, hreg, processQueue, processQueueAux_nil]
  · intro st now h
    rw [redisRelease_le_one st now h]
  · exact redisRelease_get_gt_one

theorem claim_C10_witness :
    (localReleaseCall ⟨true, 0, 2, 5, 5000, 60⟩ 4 "s"
        (localReleaseCall ⟨true, 0, 2, 5, 5000, 60⟩ 3 "s" (false, emptyReg)) =
      localReleaseCall ⟨true, 0, 2, 5, 5000, 60⟩ 3 "s" (false, emptyReg)) ∧
    ((releaseStep ⟨true, 0, 2, 5, 5000, 60⟩ 3 "s"
        (fun s => if s = "s" then some ⟨1, 2, [], false⟩ else none)).1 "s" = none) ∧
    ((redisRelease ⟨some ⟨1, 50⟩, none⟩ 0).2.inflight = none) ∧
    redisGet (redisRelease ⟨some ⟨5, 50⟩, none⟩ 0).2.inflight 0 = 4 :=
  ⟨claim_C10.1 ⟨true, 0, 2, 5, 5000, 60⟩ 3 4 "s" (false, emptyReg),
   (claim_C10.2.2.1 ⟨true, 0, 2, 5, 5000, 60⟩ 3 "s"
      (fun s => if s = "s" then some ⟨1, 2, [], false⟩ else none)
      ⟨1, 2, [], false⟩ (by decide) rfl).1,
   claim_C10.2.2.2.1 ⟨some ⟨1, 50⟩, none⟩ 0 (by decide),
   claim_C10.2.2.2.2 ⟨some ⟨5, 50⟩, none⟩ 0 (by decide)⟩


/-- Claim C2 as stated is false on the code: local-mode spacing is lost
when the bucket is garbage-collected between two grants, because the
fresh bucket restarts from lastStartedAt = 0.  Concretely, with
minIntervalMs = 100: a grant at t = 1000, its release at t = 1001 (which
deletes the idle bucket), and a new acquire at t = 1050 yields two
consecutive grants for the same credential only 50 ms apart. -/
theorem claim_C2_counterexample :
    (runRL ⟨true, 100, 1, 10, 120000, 60⟩
        [(1000, Ev.acq "s" 1), (1001, Ev.rel "s"), (1050, Ev.acq "s" 2)] emptyReg).2 =
      [(1000, "s", 1), (1050, "s", 2)] ∧
    1050 - 1000 < (⟨true, 100, 1, 10, 120000, 60⟩ : RLConfig).minIntervalMs := by
  decide

/-- Claim C2 (amended): consecutive grant starts for one credential are
at least minIntervalMs apart, except locally across a garbage-collection
of the credential's bucket.  Distributed: a grant at t1 writes
next-allowed-at = t1 + minIntervalMs with TTL intervalTtl >= minIntervalMs,
so any later grant under that interval key (release never touches it)
starts at t2 >= t1 + minIntervalMs — unconditionally.  Local: (i) a step
that grants for a credential whose bucket is registered starts at least
minIntervalMs after the bucket's lastStartedAt; (ii) after a granting
step the bucket is registered with lastStartedAt equal to that grant
instant; (iii) lastStartedAt never decreases while the bucket stays
registered; (iv) a single step grants twice only when minIntervalMs = 0
(same-instant grants then satisfy the zero spacing).  Chaining
(i)-(iv), any two consecutive grants with the bucket registered at every
intermediate state are at least minIntervalMs apart; only the
GC-and-recreate path of the counterexample escapes. -/
theorem claim_C2_amended :
    (∀ (st st2 : AdmissionState) (t1 t2 m maxC ttl maxC2 ttl2 : Nat),
       (redisAcquire st t1 m maxC ttl (intervalTtl m)).1.granted = true →
       st2.interval = (redisAcquire st t1 m maxC ttl (intervalTtl m)).2.interval →
       (redisAcquire st2 t2 m maxC2 ttl2 (intervalTtl m)).1.granted = true →
       t1 + m ≤ t2) ∧
    (∀ (cfg : RLConfig) (t : Nat) (e : Ev) (reg : Registry) (b : SessionBucket),
       reg e.sid = some b → (step cfg t e reg).2 ≠ [] →
       b.lastStartedAt + cfg.minIntervalMs ≤ t) ∧
    (∀ (cfg : RLConfig) (t : Nat) (e : Ev) (reg : Registry),
       (step cfg t e reg).2 ≠ [] →
       ∃ b', (step cfg t e reg).1 e.sid = some b' ∧ b'.lastStartedAt = t) ∧
    (∀ (cfg : RLConfig) (t : Nat) (e : Ev) (reg : Registry) (b b' : SessionBucket),
       reg e.sid = some b → (step cfg t e reg).1 e.sid = some b' →
       b.lastStartedAt ≤ b'.lastStartedAt) ∧
    (∀ (cfg : RLConfig) (t : Nat) (e : Ev) (reg : Registry),
       2 ≤ (step cfg t e reg).2.length → cfg.minIntervalMs = 0) := by
  refine ⟨?_, step_grants_spacing, step_grants_newLast, step_last_mono, step_two_grants⟩
  intro st st2 t1 t2 m maxC ttl maxC2 ttl2 h1 hint h2
  rw [redisAcquire_grant_state st t1 m maxC ttl (intervalTtl m) h1] at hint
  exact redisAcquire_spacing st2 t1 t2 m maxC2 ttl2 (intervalTtl m) hint h2

theorem claim_C2_amended_witness :
    ((redisAcquire ⟨none, none⟩ 1000 100 2 120000 (intervalTtl 100)).1.granted = true) ∧
    ((redisAcquire (redisAcquire ⟨none, none⟩ 1000 100 2 120000 (intervalTtl 100)).2
        1100 100 2 120000 (intervalTtl 100)).1.granted = true) ∧
    1000 + 100 ≤ 1100 ∧
    (900 : Nat) ≤ 1000 :=
  ⟨by decide, by decide,
   claim_C2_amended.1 ⟨none, none⟩
     (redisAcquire ⟨none, none⟩ 1000 100 2 120000 (intervalTtl 100)).2
     1000 1100 100 2 120000 2 120000 (by decide) rfl (by decide),
   claim_C2_amended.2.2.2.1 ⟨true, 100, 1, 10, 5000, 60⟩ 1000 (Ev.acq "s" 1)
     (fun s => if s = "s" then some (⟨0, 900, [], false⟩ : SessionBucket) else none)
     ⟨0, 900, [], false⟩ ⟨1, 1000, [], false⟩ (by decide) (by decide)⟩


/-- Claim C7: the async video worker is total — a generation failure
(message e) never escapes; it is recorded by updating the task to status
failed with error = e and completed_at set; and for either outcome the
worker re-reads the task and dispatches a webhook exactly when the
refreshed record's callback_url is set (validated callback URLs are
non-empty, hypothesis hcb). -/
theorem claim_C7 (tid : Nat) (rf prompt e : String) (b64f : Except String String)
    (created nowSec : Nat) (store : TaskStore) (t0 : Task)
    (hget : taskStoreGet store tid = some t0)
    (hcb : ∀ u, t0.callback_url = some u → u ≠ "") :
    (∃ t1, taskStoreGet
        (asyncVideoWork tid rf prompt (.error e) b64f created nowSec store).1 tid = some t1 ∧
      t1.status = "failed" ∧ t1.error = some e ∧ t1.completed_at = some nowSec ∧
      t1.callback_url = t0.callback_url) ∧
    (∀ (gen : Except String GeneratedVideo) (bf : Except String String),
       ((asyncVideoWork tid rf prompt gen bf created nowSec store).2.isSome ↔
         t0.callback_url.isSome)) := by
  have hw : ∀ (u1 u2 : TaskUpdate),
      taskStoreGet (taskStoreUpdate (taskStoreUpdate store tid u1) tid u2) tid =
        some ((t0.applyUpdate u1).applyUpdate u2) := by
    intro u1 u2
    rw [taskStoreGet_update, taskStoreGet_update, hget]
    rfl
  constructor
  · exact ⟨(t0.applyUpdate { status := some "processing", progress := some "生成中" }).applyUpdate
        { status := some "failed", error := some e, completed_at := some nowSec },
      hw _ _, rfl, rfl, rfl, rfl⟩
  · intro gen bf
    cases hwo : workOutcome rf prompt gen bf created with
    | ok rd =>
      simp only [asyncVideoWork, hwo]
      rw [hw _ _]
      simp only [Task.applyUpdate_callback]
      cases hc : t0.callback_url with
      | none => simp [truthyUrl, hc]
      | some u =>
        have hu : u ≠ "" := hcb u hc
        simp [truthyUrl, hc, hu]
    | error er =>
      simp only [asyncVideoWork, hwo]
      rw [hw _ _]
      simp only [Task.applyUpdate_callback]
      cases hc : t0.callback_url with
      | none => simp [truthyUrl, hc]
      | some u =>
        have hu : u ≠ "" := hcb u hc
        simp [truthyUrl, hc, hu]

theorem claim_C7_witness :
    ((asyncVideoWork 7 "url" "p" (.error "boom") (.ok "x") 1 2
        [⟨7, "video", "pending", some "http://cb", "m", "p", none, none, none, 0, none⟩]).2.isSome ↔
      (some "http://cb" : Option String).isSome) :=
  (claim_C7 7 "url" "p" "boom" (.ok "x") 1 2
      [⟨7, "video", "pending", some "http://cb", "m", "p", none, none, none, 0, none⟩]
      ⟨7, "video", "pending", some "http://cb", "m", "p", none, none, none, 0, none⟩
      (by decide)
      (fun u hu => by
        cases Option.some.inj hu
        decide)).2
    (.error "boom") (.ok "x")

/-- Claim C8: with the effective async flag true, the route creates the
task — type video, status pending, fresh id, created before and
independently of any provider call (the equation's right side does not
mention gen or b64) — hands exactly that id to the queue and answers
precisely task_id/pending; with the flag false it instead awaits the
provider and returns its formatted result directly (URL form, b64_json
form, or the propagated provider error). -/
theorem claim_C8 :
    (∀ (isMP : Bool) (a : AsyncField) (store : TaskStore) (freshId : Nat)
       (mdl prompt : String) (cb : Option String) (now : Nat) (rf : String)
       (gen : Except String GeneratedVideo) (b64 : Except String String) (created : Nat),
       effectiveAsync isMP a = true →
       postGenerations isMP a store freshId mdl prompt cb now rf gen b64 created =
         .ok ⟨.asyncAccepted freshId "pending",
              store ++ [⟨freshId, "video", "pending", cb, mdl, prompt,
                         none, none, none, now, none⟩],
              some freshId⟩) ∧
    (∀ (isMP : Bool) (a : AsyncField) (store : TaskStore) (freshId : Nat)
       (mdl prompt : String) (cb : Option String) (now : Nat) (rf : String)
       (v : GeneratedVideo) (b64 : Except String String) (created : Nat),
       effectiveAsync isMP a = false → rf ≠ "b64_json" →
       postGenerations isMP a store freshId mdl prompt cb now rf (.ok v) b64 created =
         .ok ⟨.syncResult (buildResult rf prompt v "" created), store, none⟩) ∧
    (∀ (isMP : Bool) (a : AsyncField) (store : TaskStore) (freshId : Nat)
       (mdl prompt : String) (cb : Option String) (now : Nat)
       (v : GeneratedVideo) (s : String) (created : Nat),
       effectiveAsync isMP a = false →
       postGenerations isMP a store freshId mdl prompt cb now "b64_json" (.ok v)
           (.ok s) created =
         .ok ⟨.syncResult (buildResult "b64_json" prompt v s created), store, none⟩) ∧
    (∀ (isMP : Bool) (a : AsyncField) (store : TaskStore) (freshId : Nat)
       (mdl prompt : String) (cb : Option String) (now : Nat) (rf : String)
       (err : String) (b64 : Except String String) (created : Nat),
       effectiveAsync isMP a = false →
       postGenerations isMP a store freshId mdl prompt cb now rf (.error err) b64 created =
         .error err) := by
  refine ⟨?_, ?_, ?_, ?_⟩
  · intro isMP a store freshId mdl prompt cb now rf gen b64 created h
    simp [postGenerations, h, taskStoreCreate]
  · intro isMP a store freshId mdl prompt cb now rf v b64 created h hrf
    simp [postGenerations, h, hrf]
  · intro isMP a store freshId mdl prompt cb now v s created h
    simp [postGenerations, h]
  · intro isMP a store freshId mdl prompt cb now rf err b64 created h
    simp [postGenerations, h]

theorem claim_C8_witness :
    postGenerations false (.boolVal true) [] 5 "m" "p" (some "http://cb") 9 "url"
        (.error "providerDown") (.error "x") 3 =
      .ok ⟨.asyncAccepted 5 "pending",
           [⟨5, "video", "pending", some "http://cb", "m", "p",
             none, none, none, 9, none⟩],
           some 5⟩ :=
  claim_C8.1 false (.boolVal true) [] 5 "m" "p" (some "http://cb") 9 "url"
    (.error "providerDown") (.error "x") 3 (by decide)

end Jimeng
